import Mathlib

/-!
Shallow embedding of `tools/bump_version.py`.

The script manipulates the text of `src/qtlogger/version.h` through the regex
`#define QTLOGGER_VERSION (\d+)\.(\d+)\.(\d+)` (via `re.search` and `re.sub`),
computes a major/minor/patch bump, and drives a fixed sequence of external
commands (`git rev-parse`, header regeneration, `git checkout -b`, `git add`,
`git commit`, `git tag`, `git checkout`).

File contents and command arguments are modelled as `List Char` (Python `str`
iterates code points).  The regex character class `\d` is modelled as the ASCII
digits (`Char.isDigit`); the pattern's structure — greedy one-or-more digit
groups separated by literal dots, after a fixed label — is modelled exactly,
including `re.sub`'s replacement of every non-overlapping occurrence, scanning
left to right.  External effects (file reads/writes, spawned commands) are
modelled as an explicit event trace, with command results supplied by an
oracle function from the command's argument vector to its result.
-/

namespace BumpVersion

/-- Python `int` applied to a nonempty string of ASCII digits:
left fold accumulating decimal value (`int("007") = 7`). -/
def digitsToNat (l : List Char) : Nat :=
  l.foldl (fun acc ch => 10 * acc + (ch.toNat - 48)) 0

/-- Decimal digits of `n`, most significant first, as produced by Python
`str(n)` for `n > 0`; `[]` for `n = 0`.  Fuel-based structural recursion
(`fuel ≥ n` suffices, see `natToCharsAux_digitsToNat`). -/
def natToCharsAux : Nat → Nat → List Char
  | 0, _ => []
  | fuel + 1, n => if n = 0 then [] else natToCharsAux fuel (n / 10) ++ [Nat.digitChar (n % 10)]

/-- Python `str(n)` for a non-negative integer `n` (used by the f-string
`f"{major}.{minor}.{patch}"`). -/
def natToChars (n : Nat) : List Char :=
  if n = 0 then ['0'] else natToCharsAux n n

/-- The fixed label of the version pattern, i.e. the literal part
`#define QTLOGGER_VERSION ` (with trailing space) shared by the regexes in
`read_current_version` and `write_version`. -/
def LABEL : List Char := "#define QTLOGGER_VERSION ".toList

/-- `LABEL` without its leading `#`. -/
def LTAIL : List Char := "define QTLOGGER_VERSION ".toList

/-- The text `f"{major}.{minor}.{patch}"`. -/
def versionStr (a b c : Nat) : List Char :=
  natToChars a ++ '.' :: (natToChars b ++ '.' :: natToChars c)

/-- The replacement text `f"#define QTLOGGER_VERSION {major}.{minor}.{patch}"`
used by `re.sub` in `write_version`. -/
def repl (a b c : Nat) : List Char := LABEL ++ versionStr a b c

/-- The text matched by one occurrence of the pattern with digit groups
`d1`, `d2`, `d3`. -/
def matchedText (d1 d2 d3 : List Char) : List Char :=
  LABEL ++ (d1 ++ '.' :: (d2 ++ '.' :: d3))

/-- Matching `(\d+)\.(\d+)\.(\d+)` at the start of `t`: three nonempty
maximal digit runs separated by literal dots.  (For this pattern greedy
matching coincides with maximal munch: shortening a digit group would place a
digit where a literal `.` is required.)  Returns the three groups and the
remainder of the input after the match. -/
def matchTriple (t : List Char) : Option ((List Char × List Char × List Char) × List Char) :=
  let d1 := t.takeWhile Char.isDigit
  match t.dropWhile Char.isDigit with
  | '.' :: r2 =>
    let d2 := r2.takeWhile Char.isDigit
    match r2.dropWhile Char.isDigit with
    | '.' :: r4 =>
      let d3 := r4.takeWhile Char.isDigit
      if d1.isEmpty || d2.isEmpty || d3.isEmpty then none
      else some ((d1, d2, d3), r4.dropWhile Char.isDigit)
    | _ => none
  | _ => none

/-- Matching the full pattern `#define QTLOGGER_VERSION (\d+)\.(\d+)\.(\d+)`
at the start of `s`. -/
def matchPattern (s : List Char) : Option ((List Char × List Char × List Char) × List Char) :=
  if LABEL.isPrefixOf s then matchTriple (s.drop LABEL.length) else none

/-- `re.search` for the version pattern: the groups of the leftmost match,
`none` if the pattern occurs nowhere in `s`. -/
def reSearch : List Char → Option (List Char × List Char × List Char)
  | [] => none
  | ch :: t =>
    match matchPattern (ch :: t) with
    | some ((d1, d2, d3), _) => some (d1, d2, d3)
    | none => reSearch t

/-- `read_current_version` applied to the version file's content: parse the
three groups of the first pattern occurrence with `int`; `none` models the
`ValueError("Could not find version in version.h")` raised when the pattern
is absent. -/
def read_current_version (content : List Char) : Option (Nat × Nat × Nat) :=
  (reSearch content).map fun g => (digitsToNat g.1, digitsToNat g.2.1, digitsToNat g.2.2)

/-- `re.sub` for the version pattern: scan left to right, replacing every
non-overlapping occurrence with `repl a b c`.  Fuel-based recursion; the
wrapper `write_version` supplies `fuel = length` which always suffices
(each step consumes at least one character). -/
def subAux (a b c : Nat) : Nat → List Char → List Char
  | 0, s => s
  | _ + 1, [] => []
  | fuel + 1, ch :: t =>
    match matchPattern (ch :: t) with
    | some (_, rest) => repl a b c ++ subAux a b c fuel rest
    | none => ch :: subAux a b c fuel t

/-- `write_version(major, minor, patch)` as a function on the version file's
content: the content written back is `re.sub(pattern, replacement, content)`. -/
def write_version (a b c : Nat) (content : List Char) : List Char :=
  subAux a b c content.length content

/-- Result of `subprocess.run(cmd, capture_output=True, text=True)`:
exit status, captured standard output and standard error. -/
structure CmdResult where
  returncode : Int
  stdout : List Char
  stderr : List Char
deriving DecidableEq

/-- What a call to `run_command` does to the process: either it calls
`sys.exit(code)` after printing the failing command's stderr, or it returns
the command result to its caller. -/
inductive RunOutcome where
  | exited (code : Nat) (surfaced : List Char)
  | returned (result : CmdResult)
deriving DecidableEq

/-- `run_command(cmd)`: spawn the command (its result given by `oracle`);
on nonzero exit status print `f"Error: {result.stderr}"` and `sys.exit(1)`;
otherwise return the result. -/
def run_command (oracle : List (List Char) → CmdResult) (cmd : List (List Char)) : RunOutcome :=
  if (oracle cmd).returncode ≠ 0 then .exited 1 (oracle cmd).stderr
  else .returned (oracle cmd)

/-- The boolean flags of the parsed argparse namespace:
`--major`/`-x`, `--minor`/`-y`, `--patch`/`-z`. -/
structure Args where
  major : Bool
  minor : Bool
  patch : Bool
deriving DecidableEq

/-- `sum([args.major, args.minor, args.patch])`. -/
def optionsCount (args : Args) : Nat :=
  (cond args.major 1 0) + (cond args.minor 1 0) + (cond args.patch 1 0)

/-- The new-version computation of `main`: the `if args.major / elif
args.minor / elif args.patch` chain applied to the triple read from the file. -/
def computeNewVersion (args : Args) (v : Nat × Nat × Nat) : Nat × Nat × Nat :=
  if args.major then (v.1 + 1, 0, 0)
  else if args.minor then (v.1, v.2.1 + 1, 0)
  else if args.patch then (v.1, v.2.1, v.2.2 + 1)
  else v

/-- Python `str.strip()` whitespace for the ASCII range (space, tab, newline,
carriage return, vertical tab, form feed). -/
def pyWhitespace (ch : Char) : Bool :=
  ch = ' ' || ch = '\t' || ch = '\n' || ch = '\r' || ch = '\x0b' || ch = '\x0c'

/-- `s.strip()`: remove leading and trailing whitespace. -/
def pyStrip (s : List Char) : List Char :=
  ((s.dropWhile pyWhitespace).reverse.dropWhile pyWhitespace).reverse

/-- `["git", "rev-parse", "--abbrev-ref", "HEAD"]`. -/
def gitRevParseCmd : List (List Char) :=
  ["git".toList, "rev-parse".toList, "--abbrev-ref".toList, "HEAD".toList]

/-- `[sys.executable, gen_script]` — the header-regeneration step; the
interpreter path and the path of `gen_qtlogger.h.py` are environment
dependent, so they are parameters of the model. -/
def genHeaderCmd (pythonExe genScript : List Char) : List (List Char) :=
  [pythonExe, genScript]

/-- `["git", "checkout", "-b", branch_name]`. -/
def gitCheckoutNewBranchCmd (branch : List Char) : List (List Char) :=
  ["git".toList, "checkout".toList, "-b".toList, branch]

/-- `["git", "add", "src/qtlogger/version.h", "qtlogger.h"]`. -/
def gitAddCmd : List (List Char) :=
  ["git".toList, "add".toList, "src/qtlogger/version.h".toList, "qtlogger.h".toList]

/-- `["git", "commit", "-m", commit_message]`. -/
def gitCommitCmd (msg : List Char) : List (List Char) :=
  ["git".toList, "commit".toList, "-m".toList, msg]

/-- `["git", "tag", tag_name]`. -/
def gitTagCmd (tag : List Char) : List (List Char) :=
  ["git".toList, "tag".toList, tag]

/-- `["git", "checkout", branch]`. -/
def gitCheckoutCmd (branch : List Char) : List (List Char) :=
  ["git".toList, "checkout".toList, branch]

/-- An observable side effect of `main`: opening the version file for
reading, overwriting it with new content, or spawning an external command. -/
inductive Event where
  | readVersionFile
  | writeVersionFile (newContent : List Char)
  | runCmd (cmd : List (List Char))
deriving DecidableEq

/-- The observable outcome of one invocation of `main`: the process exit
status (`0` = ran to completion), the ordered trace of side effects, the
final content of the version file, and the stderr text printed by
`run_command` if a command failed. -/
structure MainOutcome where
  exitCode : Nat
  events : List Event
  fileContent : List Char
  surfacedStderr : Option (List Char)
deriving DecidableEq

/-- `main`, as a function of the parsed flags, the initial version-file
content, the command oracle, and the environment-dependent strings of the
regeneration command.  `parser.error` exits with status 2 (argparse); an
uncaught `ValueError` from `read_current_version` exits with status 1
(Python interpreter); `run_command` failures exit with status 1. -/
def main (args : Args) (content : List Char) (oracle : List (List Char) → CmdResult)
    (pythonExe genScript : List Char) : MainOutcome :=
  if optionsCount args ≠ 1 then
    { exitCode := 2, events := [], fileContent := content, surfacedStderr := none }
  else
    match read_current_version content with
    | none =>
      { exitCode := 1, events := [.readVersionFile], fileContent := content,
        surfacedStderr := none }
    | some v =>
      let nv := computeNewVersion args v
      let ev1 : List Event := [.readVersionFile, .runCmd gitRevParseCmd]
      match run_command oracle gitRevParseCmd with
      | .exited code err =>
        { exitCode := code, events := ev1, fileContent := content, surfacedStderr := some err }
      | .returned r1 =>
        let currentBranch := pyStrip r1.stdout
        let newContent := write_version nv.1 nv.2.1 nv.2.2 content
        let ev2 := ev1 ++ [.readVersionFile, .writeVersionFile newContent]
        let gen := genHeaderCmd pythonExe genScript
        match run_command oracle gen with
        | .exited code err =>
          { exitCode := code, events := ev2 ++ [.runCmd gen], fileContent := newContent,
            surfacedStderr := some err }
        | .returned _ =>
          let branchName := 'v' :: versionStr nv.1 nv.2.1 nv.2.2
          let ev3 := ev2 ++ [.runCmd gen, .runCmd (gitCheckoutNewBranchCmd branchName)]
          match run_command oracle (gitCheckoutNewBranchCmd branchName) with
          | .exited code err =>
            { exitCode := code, events := ev3, fileContent := newContent,
              surfacedStderr := some err }
          | .returned _ =>
            let ev4 := ev3 ++ [.runCmd gitAddCmd]
            match run_command oracle gitAddCmd with
            | .exited code err =>
              { exitCode := code, events := ev4, fileContent := newContent,
                surfacedStderr := some err }
            | .returned _ =>
              let commitMessage := "Bump version to ".toList ++ versionStr nv.1 nv.2.1 nv.2.2
              let ev5 := ev4 ++ [.runCmd (gitCommitCmd commitMessage)]
              match run_command oracle (gitCommitCmd commitMessage) with
              | .exited code err =>
                { exitCode := code, events := ev5, fileContent := newContent,
                  surfacedStderr := some err }
              | .returned _ =>
                let ev6 := ev5 ++ [.runCmd (gitTagCmd branchName)]
                match run_command oracle (gitTagCmd branchName) with
                | .exited code err =>
                  { exitCode := code, events := ev6, fileContent := newContent,
                    surfacedStderr := some err }
                | .returned _ =>
                  let ev7 := ev6 ++ [.runCmd (gitCheckoutCmd currentBranch)]
                  match run_command oracle (gitCheckoutCmd currentBranch) with
                  | .exited code err =>
                    { exitCode := code, events := ev7, fileContent := newContent,
                      surfacedStderr := some err }
                  | .returned _ =>
                    { exitCode := 0, events := ev7, fileContent := newContent,
                      surfacedStderr := none }

/-- A sample version-file content used for concrete evaluations. -/
def sampleContent : List Char := "x\n#define QTLOGGER_VERSION 1.2.3\ny".toList

/-- A command oracle in which every command succeeds, with stdout `main`
(the current branch name for the `git rev-parse` query). -/
def allOkOracle : List (List Char) → CmdResult := fun _ => ⟨0, "main\n".toList, []⟩

/-- A command oracle in which `git rev-parse` succeeds and every other
command — in particular the header regeneration — fails with stderr
`genfail`. -/
def genFailOracle : List (List Char) → CmdResult := fun cmd =>
  if cmd = gitRevParseCmd then ⟨0, "main\n".toList, []⟩ else ⟨1, [], "genfail".toList⟩

/-! ### Digit and character facts -/

theorem digitChar_isDigit {m : Nat} (h : m < 10) : (Nat.digitChar m).isDigit = true := by
  interval_cases m <;> decide

theorem digitChar_toNat {m : Nat} (h : m < 10) : (Nat.digitChar m).toNat = m + 48 := by
  interval_cases m <;> decide

theorem isDigit_ne_hash {ch : Char} (h : ch.isDigit = true) : ch ≠ '#' := by
  intro he
  subst he
  simp [Char.isDigit] at h

/-! ### takeWhile / dropWhile helpers -/

theorem takeWhile_append_of_all {p : Char → Bool} {l : List Char} (r : List Char)
    (h : ∀ x ∈ l, p x = true) : (l ++ r).takeWhile p = l ++ r.takeWhile p := by
  induction l with
  | nil => simp
  | cons x t ih =>
    have hx : p x = true := h x (List.mem_cons_self x t)
    simp [List.takeWhile_cons, hx, ih fun y hy => h y (List.mem_cons_of_mem x hy)]

theorem dropWhile_append_of_all {p : Char → Bool} {l : List Char} (r : List Char)
    (h : ∀ x ∈ l, p x = true) : (l ++ r).dropWhile p = r.dropWhile p := by
  induction l with
  | nil => simp
  | cons x t ih =>
    have hx : p x = true := h x (List.mem_cons_self x t)
    simp [List.dropWhile_cons, hx, ih fun y hy => h y (List.mem_cons_of_mem x hy)]

theorem dropWhile_eq_self_of_takeWhile_nil {p : Char → Bool} {l : List Char}
    (h : l.takeWhile p = []) : l.dropWhile p = l := by
  cases l with
  | nil => simp
  | cons x t =>
    rw [List.takeWhile_cons] at h
    by_cases hx : p x = true
    · simp [hx] at h
    · simp at hx
      simp [List.dropWhile_cons, hx]

theorem takeWhile_dropWhile_nil (p : Char → Bool) (l : List Char) :
    (l.dropWhile p).takeWhile p = [] := by
  induction l with
  | nil => simp
  | cons x t ih =>
    rw [List.dropWhile_cons]
    by_cases hx : p x = true
    · simp [hx, ih]
    · simp at hx
      simp [List.takeWhile_cons, hx]

theorem head_false_of_takeWhile_nil {p : Char → Bool} {x : Char} {t : List Char}
    (h : (x :: t).takeWhile p = []) : p x = false := by
  rw [List.takeWhile_cons] at h
  by_cases hx : p x = true
  · simp [hx] at h
  · simpa using hx

theorem takeWhile_nil_of_head_false {p : Char → Bool} {x : Char} (t : List Char)
    (h : p x = false) : (x :: t).takeWhile p = [] := by
  simp [List.takeWhile_cons, h]

/-! ### Properties of the decimal rendering `natToChars` -/

theorem natToCharsAux_all_digit :
    ∀ fuel n, ∀ ch ∈ natToCharsAux fuel n, ch.isDigit = true := by
  intro fuel
  induction fuel with
  | zero => intro n ch h; simp [natToCharsAux] at h
  | succ fuel ih =>
    intro n ch h
    rw [natToCharsAux] at h
    by_cases hn : n = 0
    · simp [hn] at h
    · simp only [hn, if_false] at h
      rcases List.mem_append.mp h with h1 | h2
      · exact ih _ ch h1
      · have : ch = Nat.digitChar (n % 10) := by simpa using h2
        subst this
        exact digitChar_isDigit (Nat.mod_lt n (by norm_num))

theorem natToChars_all_digit (n : Nat) : ∀ ch ∈ natToChars n, ch.isDigit = true := by
  intro ch h
  rw [natToChars] at h
  by_cases hn : n = 0
  · simp [hn] at h
    subst h
    decide
  · simp only [hn, if_false] at h
    exact natToCharsAux_all_digit n n ch h

theorem natToChars_ne_nil (n : Nat) : natToChars n ≠ [] := by
  rw [natToChars]
  by_cases hn : n = 0
  · simp [hn]
  · simp only [hn, if_false]
    cases n with
    | zero => exact absurd rfl hn
    | succ m =>
      rw [natToCharsAux]
      simp [hn]

theorem natToCharsAux_foldl (fuel : Nat) :
    ∀ n acc, n ≤ fuel →
      (natToCharsAux fuel n).foldl (fun a ch => 10 * a + (ch.toNat - 48)) acc =
        acc * 10 ^ (natToCharsAux fuel n).length + n := by
  induction fuel with
  | zero =>
    intro n acc h
    have : n = 0 := Nat.le_zero.mp h
    subst this
    simp [natToCharsAux]
  | succ fuel ih =>
    intro n acc h
    rw [natToCharsAux]
    by_cases hn : n = 0
    · simp [hn]
    · simp only [hn, if_false]
      have hdiv : n / 10 ≤ fuel := by
        have h1 : n / 10 < n := Nat.div_lt_self (Nat.pos_of_ne_zero hn) (by norm_num)
        omega
      rw [List.foldl_append]
      simp only [List.foldl_cons, List.foldl_nil]
      rw [ih (n / 10) acc hdiv]
      rw [digitChar_toNat (Nat.mod_lt n (by norm_num))]
      simp only [List.length_append, List.length_cons, List.length_nil]
      rw [pow_succ]
      have : n = 10 * (n / 10) + n % 10 := (Nat.div_add_mod n 10).symm
      ring_nf
      omega

theorem digitsToNat_natToChars (n : Nat) : digitsToNat (natToChars n) = n := by
  rw [digitsToNat, natToChars]
  by_cases hn : n = 0
  · simp [hn]
  · simp only [hn, if_false]
    rw [natToCharsAux_foldl n n 0 (le_refl n)]
    simp

/-! ### Structure of a pattern match -/

theorem LABEL_eq : LABEL = '#' :: LTAIL := by decide

theorem hash_not_mem_LTAIL : '#' ∉ LTAIL := by decide

theorem LABEL_length : LABEL.length = 25 := by decide

theorem matchTriple_eq_some {t d1 d2 d3 rest : List Char}
    (h : matchTriple t = some ((d1, d2, d3), rest)) :
    t = d1 ++ '.' :: (d2 ++ '.' :: (d3 ++ rest)) ∧
      d1 ≠ [] ∧ d2 ≠ [] ∧ d3 ≠ [] ∧
      (∀ ch ∈ d1, ch.isDigit = true) ∧ (∀ ch ∈ d2, ch.isDigit = true) ∧
      (∀ ch ∈ d3, ch.isDigit = true) ∧ rest.takeWhile Char.isDigit = [] := by
  unfold matchTriple at h
  split at h
  case h_2 => exact absurd h (by simp)
  case h_1 r2 heq1 =>
    split at h
    case h_2 => exact absurd h (by simp)
    case h_1 r4 heq2 =>
      simp only [] at h
      split at h
      case isTrue => exact absurd h (by simp)
      case isFalse hcond =>
        simp only [Option.some.injEq, Prod.mk.injEq] at h
        obtain ⟨⟨e1, e2, e3⟩, e4⟩ := h
        subst e1; subst e2; subst e3; subst e4
        simp only [Bool.or_eq_true, List.isEmpty_iff, not_or] at hcond
        obtain ⟨⟨n1, n2⟩, n3⟩ := hcond
        refine ⟨?_, n1, n2, n3, ?_, ?_, ?_, ?_⟩
        · conv_lhs => rw [← List.takeWhile_append_dropWhile Char.isDigit t]
          rw [heq1]
          congr 2
          conv_lhs => rw [← List.takeWhile_append_dropWhile Char.isDigit r2]
          rw [heq2]
          congr 2
          exact (List.takeWhile_append_dropWhile Char.isDigit r4).symm
        · exact fun ch hc => List.mem_takeWhile_imp hc
        · exact fun ch hc => List.mem_takeWhile_imp hc
        · exact fun ch hc => List.mem_takeWhile_imp hc
        · exact takeWhile_dropWhile_nil Char.isDigit r4

theorem matchTriple_build {d1 d2 d3 rest : List Char}
    (n1 : d1 ≠ []) (n2 : d2 ≠ []) (n3 : d3 ≠ [])
    (g1 : ∀ ch ∈ d1, ch.isDigit = true) (g2 : ∀ ch ∈ d2, ch.isDigit = true)
    (g3 : ∀ ch ∈ d3, ch.isDigit = true)
    (hrest : rest.takeWhile Char.isDigit = []) :
    matchTriple (d1 ++ '.' :: (d2 ++ '.' :: (d3 ++ rest))) = some ((d1, d2, d3), rest) := by
  have hdot : Char.isDigit '.' = false := by decide
  have e1 : (d1 ++ '.' :: (d2 ++ '.' :: (d3 ++ rest))).takeWhile Char.isDigit = d1 := by
    rw [takeWhile_append_of_all _ g1, takeWhile_nil_of_head_false _ hdot, List.append_nil]
  have e2 : (d1 ++ '.' :: (d2 ++ '.' :: (d3 ++ rest))).dropWhile Char.isDigit =
      '.' :: (d2 ++ '.' :: (d3 ++ rest)) := by
    rw [dropWhile_append_of_all _ g1, List.dropWhile_cons]
    simp [hdot]
  have e3 : (d2 ++ '.' :: (d3 ++ rest)).takeWhile Char.isDigit = d2 := by
    rw [takeWhile_append_of_all _ g2, takeWhile_nil_of_head_false _ hdot, List.append_nil]
  have e4 : (d2 ++ '.' :: (d3 ++ rest)).dropWhile Char.isDigit = '.' :: (d3 ++ rest) := by
    rw [dropWhile_append_of_all _ g2, List.dropWhile_cons]
    simp [hdot]
  have e5 : (d3 ++ rest).takeWhile Char.isDigit = d3 := by
    rw [takeWhile_append_of_all _ g3, hrest, List.append_nil]
  have e6 : (d3 ++ rest).dropWhile Char.isDigit = rest := by
    rw [dropWhile_append_of_all _ g3, dropWhile_eq_self_of_takeWhile_nil hrest]
  have b1 : d1.isEmpty = false := by cases d1 with
    | nil => exact absurd rfl n1
    | cons x t => rfl
  have b2 : d2.isEmpty = false := by cases d2 with
    | nil => exact absurd rfl n2
    | cons x t => rfl
  have b3 : d3.isEmpty = false := by cases d3 with
    | nil => exact absurd rfl n3
    | cons x t => rfl
  unfold matchTriple
  rw [e2]
  simp only [e1, e3, e4, e5, e6, b1, b2, b3]
  rfl

theorem matchPattern_eq_some {s d1 d2 d3 rest : List Char}
    (h : matchPattern s = some ((d1, d2, d3), rest)) :
    s = LABEL ++ (d1 ++ '.' :: (d2 ++ '.' :: (d3 ++ rest))) ∧
      d1 ≠ [] ∧ d2 ≠ [] ∧ d3 ≠ [] ∧
      (∀ ch ∈ d1, ch.isDigit = true) ∧ (∀ ch ∈ d2, ch.isDigit = true) ∧
      (∀ ch ∈ d3, ch.isDigit = true) ∧ rest.takeWhile Char.isDigit = [] := by
  unfold matchPattern at h
  split at h
  case isFalse => exact absurd h (by simp)
  case isTrue hpre =>
    obtain ⟨r, hr⟩ := List.isPrefixOf_iff_prefix.mp hpre
    rw [← hr, List.drop_left] at h
    obtain ⟨ht, props⟩ := matchTriple_eq_some h
    subst ht
    exact ⟨hr.symm, props⟩

theorem matchPattern_build {d1 d2 d3 rest : List Char}
    (n1 : d1 ≠ []) (n2 : d2 ≠ []) (n3 : d3 ≠ [])
    (g1 : ∀ ch ∈ d1, ch.isDigit = true) (g2 : ∀ ch ∈ d2, ch.isDigit = true)
    (g3 : ∀ ch ∈ d3, ch.isDigit = true)
    (hrest : rest.takeWhile Char.isDigit = []) :
    matchPattern (LABEL ++ (d1 ++ '.' :: (d2 ++ '.' :: (d3 ++ rest)))) =
      some ((d1, d2, d3), rest) := by
  unfold matchPattern
  have hpre : LABEL.isPrefixOf (LABEL ++ (d1 ++ '.' :: (d2 ++ '.' :: (d3 ++ rest)))) = true :=
    List.isPrefixOf_iff_prefix.mpr (List.prefix_append _ _)
  rw [if_pos hpre, List.drop_left]
  exact matchTriple_build n1 n2 n3 g1 g2 g3 hrest

theorem matchPattern_some_head {s rest : List Char}
    {g : List Char × List Char × List Char} (h : matchPattern s = some (g, rest)) :
    ∃ t, s = '#' :: t := by
  obtain ⟨d1, d2, d3⟩ := g
  obtain ⟨hs, -⟩ := matchPattern_eq_some h
  rw [LABEL_eq] at hs
  exact ⟨_, hs⟩

theorem matchPattern_some_length {s rest : List Char}
    {g : List Char × List Char × List Char} (h : matchPattern s = some (g, rest)) :
    rest.length < s.length := by
  obtain ⟨d1, d2, d3⟩ := g
  obtain ⟨hs, -⟩ := matchPattern_eq_some h
  rw [hs]
  have := LABEL_length
  simp [List.length_append, List.length_cons]
  omega

theorem matchPattern_repl_append (a b c : Nat) {X : List Char}
    (hX : X.takeWhile Char.isDigit = []) :
    matchPattern (repl a b c ++ X) =
      some ((natToChars a, natToChars b, natToChars c), X) := by
  have hre : repl a b c ++ X =
      LABEL ++ (natToChars a ++ '.' :: (natToChars b ++ '.' :: (natToChars c ++ X))) := by
    simp [repl, versionStr, List.append_assoc]
  rw [hre]
  exact matchPattern_build (natToChars_ne_nil a) (natToChars_ne_nil b) (natToChars_ne_nil c)
    (natToChars_all_digit a) (natToChars_all_digit b) (natToChars_all_digit c) hX

/-! ### Basic equations for `subAux` -/

theorem subAux_nil (a b c fuel : Nat) : subAux a b c fuel [] = [] := by
  cases fuel <;> rfl

theorem subAux_cons_some {ch : Char} {t rest : List Char}
    {g : List Char × List Char × List Char} (a b c fuel : Nat)
    (h : matchPattern (ch :: t) = some (g, rest)) :
    subAux a b c (fuel + 1) (ch :: t) = repl a b c ++ subAux a b c fuel rest := by
  simp only [subAux, h]

theorem subAux_cons_none {ch : Char} {t : List Char} (a b c fuel : Nat)
    (h : matchPattern (ch :: t) = none) :
    subAux a b c (fuel + 1) (ch :: t) = ch :: subAux a b c fuel t := by
  simp only [subAux, h]

theorem subAux_congr (a b c : Nat) :
    ∀ fuel fuel' s, s.length ≤ fuel → s.length ≤ fuel' →
      subAux a b c fuel s = subAux a b c fuel' s := by
  intro fuel
  induction fuel with
  | zero =>
    intro fuel' s h h'
    have hs : s = [] := List.length_eq_zero.mp (Nat.le_zero.mp h)
    subst hs
    rw [subAux_nil, subAux_nil]
  | succ fuel ih =>
    intro fuel' s h h'
    cases s with
    | nil => rw [subAux_nil, subAux_nil]
    | cons ch t =>
      cases fuel' with
      | zero => simp at h'
      | succ f2 =>
        cases hm : matchPattern (ch :: t) with
        | some pr =>
          obtain ⟨g, rest⟩ := pr
          have hlt := matchPattern_some_length hm
          rw [subAux_cons_some a b c fuel hm, subAux_cons_some a b c f2 hm]
          have hb1 : rest.length ≤ fuel := by
            simp only [List.length_cons] at hlt h
            omega
          have hb2 : rest.length ≤ f2 := by
            simp only [List.length_cons] at hlt h'
            omega
          rw [ih f2 rest hb1 hb2]
        | none =>
          rw [subAux_cons_none a b c fuel hm, subAux_cons_none a b c f2 hm]
          have hb1 : t.length ≤ fuel := by simp only [List.length_cons] at h; omega
          have hb2 : t.length ≤ f2 := by simp only [List.length_cons] at h'; omega
          rw [ih f2 t hb1 hb2]

theorem takeWhile_subAux_nil (a b c fuel : Nat) {s : List Char}
    (h : s.takeWhile Char.isDigit = []) :
    (subAux a b c fuel s).takeWhile Char.isDigit = [] := by
  cases fuel with
  | zero => exact h
  | succ fuel =>
    cases s with
    | nil => rw [subAux_nil]; exact h
    | cons ch t =>
      cases hm : matchPattern (ch :: t) with
      | some pr =>
        obtain ⟨g, rest⟩ := pr
        rw [subAux_cons_some a b c fuel hm]
        have hr : repl a b c ++ subAux a b c fuel rest =
            '#' :: (LTAIL ++ (versionStr a b c ++ subAux a b c fuel rest)) := by
          rw [repl, LABEL_eq]
          simp [List.append_assoc]
        rw [hr]
        exact takeWhile_nil_of_head_false _ (by decide)
      | none =>
        rw [subAux_cons_none a b c fuel hm]
        exact takeWhile_nil_of_head_false _ (head_false_of_takeWhile_nil h)

/-! ### No occurrence of the pattern appears at a position where none was -/

theorem subAux_sharp (a b c : Nat) :
    ∀ fuel t, subAux a b c fuel t = t ∨
      ∃ u v v₂, t = u ++ '#' :: v ∧ subAux a b c fuel t = u ++ '#' :: v₂ := by
  intro fuel
  induction fuel with
  | zero => intro t; exact Or.inl rfl
  | succ fuel ih =>
    intro t
    cases t with
    | nil => exact Or.inl (subAux_nil a b c _)
    | cons ch t2 =>
      cases hm : matchPattern (ch :: t2) with
      | some pr =>
        obtain ⟨g, rest⟩ := pr
        obtain ⟨t3, ht3⟩ := matchPattern_some_head hm
        have hch : ch = '#' := (List.cons.injEq ch t2 '#' t3).mp ht3 |>.1
        right
        refine ⟨[], t2, LTAIL ++ (versionStr a b c ++ subAux a b c fuel rest), ?_, ?_⟩
        · simp [hch]
        · rw [subAux_cons_some a b c fuel hm, repl, LABEL_eq]
          simp [List.append_assoc]
      | none =>
        rw [subAux_cons_none a b c fuel hm]
        rcases ih t2 with heq | ⟨u, v, v₂, h1, h2⟩
        · exact Or.inl (by rw [heq])
        · right
          exact ⟨ch :: u, v, v₂, by simp [h1], by simp [h2]⟩

theorem append_hash_split :
    ∀ (A X u v₂ : List Char), A ++ X = u ++ '#' :: v₂ → '#' ∉ A →
      ∃ w, u = A ++ w ∧ X = w ++ '#' :: v₂ := by
  intro A
  induction A with
  | nil =>
    intro X u v₂ h hn
    exact ⟨u, by simp, by simpa using h⟩
  | cons x A2 ih =>
    intro X u v₂ h hn
    cases u with
    | nil =>
      simp only [List.cons_append, List.nil_append, List.cons.injEq] at h
      exact absurd (h.1 ▸ List.mem_cons_self x A2) hn
    | cons u0 u2 =>
      simp only [List.cons_append, List.cons.injEq] at h
      obtain ⟨hx, h2⟩ := h
      obtain ⟨w, hw1, hw2⟩ := ih X u2 v₂ h2 (fun hmem => hn (List.mem_cons_of_mem x hmem))
      refine ⟨w, ?_, hw2⟩
      rw [List.cons_append, ← hw1, hx]

theorem not_mem_of_all_digit {d : List Char} (hd : ∀ ch ∈ d, ch.isDigit = true) :
    '#' ∉ d := by
  intro hmem
  exact absurd (hd '#' hmem) (by decide)

theorem matchPattern_cons_subAux (a b c fuel : Nat) {ch : Char} {t : List Char}
    (h : matchPattern (ch :: t) = none) :
    matchPattern (ch :: subAux a b c fuel t) = none := by
  cases hm : matchPattern (ch :: subAux a b c fuel t) with
  | none => rfl
  | some pr =>
    exfalso
    obtain ⟨⟨d1, d2, d3⟩, X⟩ := pr
    obtain ⟨hs, n1, n2, n3, g1, g2, g3, hX⟩ := matchPattern_eq_some hm
    rw [LABEL_eq, List.cons_append] at hs
    injection hs with hch hsub0
    have hsub : subAux a b c fuel t = (LTAIL ++ (d1 ++ '.' :: (d2 ++ '.' :: d3))) ++ X := by
      rw [hsub0]
      simp [List.append_assoc]
    have hA : '#' ∉ LTAIL ++ (d1 ++ '.' :: (d2 ++ '.' :: d3)) := by
      intro hmem
      simp only [List.mem_append, List.mem_cons] at hmem
      rcases hmem with h1 | h2 | h3 | h4 | h5 | h6
      · exact hash_not_mem_LTAIL h1
      · exact not_mem_of_all_digit g1 h2
      · exact absurd h3 (by decide)
      · exact not_mem_of_all_digit g2 h4
      · exact absurd h5 (by decide)
      · exact not_mem_of_all_digit g3 h6
    rcases subAux_sharp a b c fuel t with heq | ⟨u, v, v₂, h1, h2⟩
    · rw [heq] at hm
      rw [h] at hm
      exact Option.noConfusion hm
    · have hx := hsub.symm.trans h2
      obtain ⟨w, hw1, hw2⟩ := append_hash_split _ _ _ _ hx hA
      have hwX : (w ++ '#' :: v).takeWhile Char.isDigit = [] := by
        cases w with
        | nil => exact takeWhile_nil_of_head_false _ (by decide)
        | cons w0 w2 =>
          have hX0 : X = w0 :: (w2 ++ '#' :: v₂) := by simpa using hw2
          exact takeWhile_nil_of_head_false _ (head_false_of_takeWhile_nil (hX0 ▸ hX))
      have hbuild := matchPattern_build n1 n2 n3 g1 g2 g3 hwX
      have hform : ch :: t = LABEL ++ (d1 ++ '.' :: (d2 ++ '.' :: (d3 ++ (w ++ '#' :: v)))) := by
        rw [hch, h1, hw1, LABEL_eq]
        simp [List.append_assoc]
      rw [← hform] at hbuild
      rw [h] at hbuild
      exact Option.noConfusion hbuild

/-! ### Lemmas about `reSearch` -/

theorem reSearch_of_matchPattern {s rest d1 d2 d3 : List Char}
    (h : matchPattern s = some ((d1, d2, d3), rest)) :
    reSearch s = some (d1, d2, d3) := by
  obtain ⟨t, ht⟩ := matchPattern_some_head h
  subst ht
  simp only [reSearch, h]

theorem reSearch_cons_none {ch : Char} {t : List Char}
    (h : matchPattern (ch :: t) = none) : reSearch (ch :: t) = reSearch t := by
  simp only [reSearch, h]

theorem matchPattern_none_of_reSearch_none {s : List Char} (h : reSearch s = none) :
    matchPattern s = none := by
  cases s with
  | nil => decide
  | cons ch t =>
    cases hm : matchPattern (ch :: t) with
    | none => rfl
    | some pr =>
      obtain ⟨⟨d1, d2, d3⟩, rest⟩ := pr
      rw [reSearch_of_matchPattern hm] at h
      exact Option.noConfusion h

theorem reSearch_tail_none {ch : Char} {t : List Char} (h : reSearch (ch :: t) = none) :
    reSearch t = none := by
  rw [reSearch_cons_none (matchPattern_none_of_reSearch_none h)] at h
  exact h

/-! ### `re.sub` with no occurrence is the identity -/

theorem subAux_of_reSearch_none (a b c : Nat) :
    ∀ fuel s, reSearch s = none → subAux a b c fuel s = s := by
  intro fuel
  induction fuel with
  | zero => intro s h; rfl
  | succ fuel ih =>
    intro s h
    cases s with
    | nil => exact subAux_nil a b c _
    | cons ch t =>
      rw [subAux_cons_none a b c fuel (matchPattern_none_of_reSearch_none h),
        ih t (reSearch_tail_none h)]

/-! ### Round trip: searching after substituting finds the new triple -/

theorem reSearch_subAux (a b c : Nat) :
    ∀ fuel s, s.length ≤ fuel → (reSearch s).isSome = true →
      reSearch (subAux a b c fuel s) = some (natToChars a, natToChars b, natToChars c) := by
  intro fuel
  induction fuel with
  | zero =>
    intro s h hs
    have hn : s = [] := List.length_eq_zero.mp (Nat.le_zero.mp h)
    subst hn
    simp [reSearch] at hs
  | succ fuel ih =>
    intro s h hs
    cases s with
    | nil => simp [reSearch] at hs
    | cons ch t =>
      cases hm : matchPattern (ch :: t) with
      | some pr =>
        obtain ⟨⟨d1, d2, d3⟩, rest⟩ := pr
        obtain ⟨-, -, -, -, -, -, -, hrest⟩ := matchPattern_eq_some hm
        rw [subAux_cons_some a b c fuel hm]
        exact reSearch_of_matchPattern
          (matchPattern_repl_append a b c (takeWhile_subAux_nil a b c fuel hrest))
      | none =>
        rw [subAux_cons_none a b c fuel hm,
          reSearch_cons_none (matchPattern_cons_subAux a b c fuel hm)]
        have ht : (reSearch t).isSome = true := by
          rw [reSearch_cons_none hm] at hs
          exact hs
        exact ih t (by simp only [List.length_cons] at h; omega) ht

/-! ### Substitution fixes its own output (idempotence) -/

theorem subAux_repl_append (a b c f : Nat) {X : List Char}
    (hX : X.takeWhile Char.isDigit = []) :
    subAux a b c (f + 1) (repl a b c ++ X) = repl a b c ++ subAux a b c f X := by
  have hcons : repl a b c ++ X = '#' :: (LTAIL ++ (versionStr a b c ++ X)) := by
    rw [repl, LABEL_eq]
    simp [List.append_assoc]
  have hmp : matchPattern ('#' :: (LTAIL ++ (versionStr a b c ++ X))) =
      some ((natToChars a, natToChars b, natToChars c), X) := by
    rw [← hcons]
    exact matchPattern_repl_append a b c hX
  rw [hcons, subAux_cons_some a b c f hmp]

theorem repl_length_pos (a b c : Nat) : 1 ≤ (repl a b c).length := by
  rw [repl, LABEL_eq]
  simp

theorem subAux_idem (a b c : Nat) :
    ∀ f1 f2 s, s.length ≤ f1 → (subAux a b c f1 s).length ≤ f2 →
      subAux a b c f2 (subAux a b c f1 s) = subAux a b c f1 s := by
  intro f1
  induction f1 with
  | zero =>
    intro f2 s h1 h2
    have hn : s = [] := List.length_eq_zero.mp (Nat.le_zero.mp h1)
    subst hn
    exact subAux_nil a b c f2
  | succ f1 ih =>
    intro f2 s h1 h2
    cases s with
    | nil =>
      rw [subAux_nil]
      exact subAux_nil a b c f2
    | cons ch t =>
      cases hm : matchPattern (ch :: t) with
      | some pr =>
        obtain ⟨⟨d1, d2, d3⟩, rest⟩ := pr
        obtain ⟨-, -, -, -, -, -, -, hrest⟩ := matchPattern_eq_some hm
        rw [subAux_cons_some a b c f1 hm] at h2 ⊢
        have hXw : (subAux a b c f1 rest).takeWhile Char.isDigit = [] :=
          takeWhile_subAux_nil a b c f1 hrest
        have hrepl := repl_length_pos a b c
        rw [List.length_append] at h2
        obtain ⟨f2', rfl⟩ : ∃ f2', f2 = f2' + 1 := ⟨f2 - 1, by omega⟩
        rw [subAux_repl_append a b c f2' hXw]
        have hb1 : rest.length ≤ f1 := by
          have := matchPattern_some_length hm
          simp only [List.length_cons] at this h1
          omega
        rw [ih f2' rest hb1 (by omega)]
      | none =>
        rw [subAux_cons_none a b c f1 hm] at h2 ⊢
        simp only [List.length_cons] at h2
        have hm2 := matchPattern_cons_subAux a b c f1 hm
        obtain ⟨f2', rfl⟩ : ∃ f2', f2 = f2' + 1 := ⟨f2 - 1, by omega⟩
        rw [subAux_cons_none a b c f2' hm2]
        have hb1 : t.length ≤ f1 := by simp only [List.length_cons] at h1; omega
        rw [ih f2' t hb1 (by omega)]

/-! ### Decomposition of the input at the first occurrence -/

theorem subAux_decompose (a b c : Nat) :
    ∀ fuel s, s.length ≤ fuel → (reSearch s).isSome = true →
      ∃ u d1 d2 d3 rest, s = u ++ matchedText d1 d2 d3 ++ rest ∧
        subAux a b c fuel s = u ++ repl a b c ++ subAux a b c rest.length rest := by
  intro fuel
  induction fuel with
  | zero =>
    intro s h hs
    have hn : s = [] := List.length_eq_zero.mp (Nat.le_zero.mp h)
    subst hn
    simp [reSearch] at hs
  | succ fuel ih =>
    intro s h hs
    cases s with
    | nil => simp [reSearch] at hs
    | cons ch t =>
      cases hm : matchPattern (ch :: t) with
      | some pr =>
        obtain ⟨⟨d1, d2, d3⟩, rest⟩ := pr
        obtain ⟨hs2, -⟩ := matchPattern_eq_some hm
        refine ⟨[], d1, d2, d3, rest, ?_, ?_⟩
        · rw [hs2]
          simp [matchedText, List.append_assoc]
        · rw [subAux_cons_some a b c fuel hm]
          have hb : rest.length ≤ fuel := by
            have := matchPattern_some_length hm
            simp only [List.length_cons] at this h
            omega
          rw [subAux_congr a b c fuel rest.length rest hb (le_refl _)]
          simp
      | none =>
        have ht : (reSearch t).isSome = true := by
          rw [reSearch_cons_none hm] at hs
          exact hs
        obtain ⟨u, d1, d2, d3, rest, he, hsub⟩ :=
          ih t (by simp only [List.length_cons] at h; omega) ht
        refine ⟨ch :: u, d1, d2, d3, rest, by simp [he], ?_⟩
        rw [subAux_cons_none a b c fuel hm, hsub]
        simp

/-! ### Helper lemmas for the workflow level -/

theorem run_command_returned {oracle : List (List Char) → CmdResult} {cmd : List (List Char)}
    (h : (oracle cmd).returncode = 0) :
    run_command oracle cmd = RunOutcome.returned (oracle cmd) := by
  simp [run_command, h]

theorem run_command_exited {oracle : List (List Char) → CmdResult} {cmd : List (List Char)}
    (h : (oracle cmd).returncode ≠ 0) :
    run_command oracle cmd = RunOutcome.exited 1 (oracle cmd).stderr := by
  simp [run_command, h]

theorem reSearch_isSome_of_read {content : List Char}
    (h : (read_current_version content).isSome = true) :
    (reSearch content).isSome = true := by
  rw [read_current_version] at h
  cases hr : reSearch content with
  | none => rw [hr] at h; simp at h
  | some g => rfl

/-! ## The claims -/

/-- Claim C1: for every triple (a,b,c) of non-negative integers read from
the version file, selecting the major bump yields (a+1,0,0), the minor bump
yields (a,b+1,0), and the patch bump yields (a,b,c+1). -/
theorem claim_C1 (a b c : Nat) :
    computeNewVersion ⟨true, false, false⟩ (a, b, c) = (a + 1, 0, 0) ∧
    computeNewVersion ⟨false, true, false⟩ (a, b, c) = (a, b + 1, 0) ∧
    computeNewVersion ⟨false, false, true⟩ (a, b, c) = (a, b, c + 1) :=
  ⟨rfl, rfl, rfl⟩

/-- Claim C2: for every valid triple and every file content containing at
least one occurrence of the labeled version pattern, performing the write
and then the read returns exactly the written triple. -/
theorem claim_C2 (a b c : Nat) (content : List Char)
    (h : (read_current_version content).isSome = true) :
    read_current_version (write_version a b c content) = some (a, b, c) := by
  rw [write_version, read_current_version,
    reSearch_subAux a b c content.length content (le_refl _) (reSearch_isSome_of_read h)]
  simp [digitsToNat_natToChars]

/-- Witness for C2 at a concrete content and triple. -/
theorem claim_C2_witness :
    (read_current_version sampleContent).isSome = true ∧
      read_current_version (write_version 4 5 6 sampleContent) = some (4, 5, 6) :=
  ⟨by decide, claim_C2 4 5 6 sampleContent (by decide)⟩

/-- Claim C4: write is idempotent — writing the same triple twice yields the
same file content as writing it once. -/
theorem claim_C4 (a b c : Nat) (content : List Char) :
    write_version a b c (write_version a b c content) = write_version a b c content :=
  subAux_idem a b c content.length (write_version a b c content).length content
    (le_refl _) (le_refl _)

/-- Claim C10: when the file content contains no occurrence of the labeled
version pattern, the write completes without error and leaves the content
unchanged. -/
theorem claim_C10 (a b c : Nat) (content : List Char)
    (h : reSearch content = none) : write_version a b c content = content :=
  subAux_of_reSearch_none a b c content.length content h

/-- Witness for C10 at a concrete pattern-free content. -/
theorem claim_C10_witness :
    reSearch ("no version here".toList) = none ∧
      write_version 1 2 3 ("no version here".toList) = "no version here".toList :=
  ⟨by decide, claim_C10 1 2 3 ("no version here".toList) (by decide)⟩

/-- Claim C3 counterexample: on a file content with two occurrences of the
labeled pattern, the write rewrites the second occurrence too, so bytes
outside the first labeled line are not preserved — `re.sub` replaces every
occurrence, not only the first. -/
theorem claim_C3_counterexample :
    write_version 9 9 9
        ("#define QTLOGGER_VERSION 1.2.3\n#define QTLOGGER_VERSION 4.5.6".toList) =
      "#define QTLOGGER_VERSION 9.9.9\n#define QTLOGGER_VERSION 9.9.9".toList ∧
    write_version 9 9 9
        ("#define QTLOGGER_VERSION 1.2.3\n#define QTLOGGER_VERSION 4.5.6".toList) ≠
      "#define QTLOGGER_VERSION 9.9.9\n#define QTLOGGER_VERSION 4.5.6".toList := by
  constructor
  · decide
  · decide

/-- Claim C3 (amended): the write replaces every occurrence of the labeled
pattern.  The content splits at the first occurrence; every byte before it
is preserved, and when the remainder holds no further occurrence (the
first is the only one), every byte after it is preserved too. -/
theorem claim_C3 (a b c : Nat) (content : List Char)
    (h : (read_current_version content).isSome = true) :
    ∃ u d1 d2 d3 rest, content = u ++ matchedText d1 d2 d3 ++ rest ∧
      write_version a b c content = u ++ repl a b c ++ write_version a b c rest ∧
      (reSearch rest = none → write_version a b c content = u ++ repl a b c ++ rest) := by
  obtain ⟨u, d1, d2, d3, rest, he, hsub⟩ :=
    subAux_decompose a b c content.length content (le_refl _) (reSearch_isSome_of_read h)
  refine ⟨u, d1, d2, d3, rest, he, hsub, ?_⟩
  intro hnone
  rw [write_version, hsub, subAux_of_reSearch_none a b c rest.length rest hnone]

/-- Witness for C3 (amended) at a concrete single-occurrence content. -/
theorem claim_C3_witness :
    (read_current_version sampleContent).isSome = true ∧
      (∃ u d1 d2 d3 rest, sampleContent = u ++ matchedText d1 d2 d3 ++ rest ∧
        write_version 7 8 9 sampleContent = u ++ repl 7 8 9 ++ write_version 7 8 9 rest ∧
        (reSearch rest = none → write_version 7 8 9 sampleContent = u ++ repl 7 8 9 ++ rest)) :=
  ⟨by decide, claim_C3 7 8 9 sampleContent (by decide)⟩

/-- Claim C7 counterexample: on a command whose exit status is nonzero,
`run_command` does not return the command result to the caller — it
terminates the process (modelled by the `exited` outcome) with status 1. -/
theorem claim_C7_counterexample :
    run_command (fun _ => ⟨1, [], "boom".toList⟩) ["git".toList] =
      RunOutcome.exited 1 ("boom".toList) ∧
    run_command (fun _ => ⟨1, [], "boom".toList⟩) ["git".toList] ≠
      RunOutcome.returned ⟨1, [], "boom".toList⟩ := by
  constructor
  · decide
  · decide

/-- Claim C7 (amended): it is `run_command` itself, not the orchestrator,
that treats a nonzero exit as fatal: on nonzero exit it prints the captured
stderr and terminates the process with status 1; the CommandResult is
returned to the caller only when the exit status is zero. -/
theorem claim_C7 (oracle : List (List Char) → CmdResult) (cmd : List (List Char)) :
    ((oracle cmd).returncode ≠ 0 →
        run_command oracle cmd = RunOutcome.exited 1 (oracle cmd).stderr) ∧
    ((oracle cmd).returncode = 0 →
        run_command oracle cmd = RunOutcome.returned (oracle cmd)) :=
  ⟨fun h => run_command_exited h, fun h => run_command_returned h⟩

/-- Witness for C7 (amended) at concrete oracles. -/
theorem claim_C7_witness :
    run_command (fun _ => ⟨2, [], "err".toList⟩) ["git".toList] =
      RunOutcome.exited 1 ("err".toList) ∧
    run_command (fun _ => ⟨0, "ok".toList, []⟩) ["git".toList] =
      RunOutcome.returned ⟨0, "ok".toList, []⟩ :=
  ⟨(claim_C7 (fun _ => ⟨2, [], "err".toList⟩) ["git".toList]).1 (by decide),
   (claim_C7 (fun _ => ⟨0, "ok".toList, []⟩) ["git".toList]).2 rfl⟩

/-- Claim C5: supplying zero flags or two-or-more flags among
major/minor/patch terminates the process with a nonzero exit status (2,
argparse usage error) before any side effect: the trace is empty — no file
is read or mutated and no external command is run. -/
theorem claim_C5 (args : Args) (content : List Char)
    (oracle : List (List Char) → CmdResult) (pythonExe genScript : List Char)
    (h : optionsCount args ≠ 1) :
    main args content oracle pythonExe genScript =
      { exitCode := 2, events := [], fileContent := content, surfacedStderr := none } ∧
    (main args content oracle pythonExe genScript).exitCode ≠ 0 := by
  have he : main args content oracle pythonExe genScript =
      { exitCode := 2, events := [], fileContent := content, surfacedStderr := none } := by
    rw [main, if_pos h]
  exact ⟨he, by rw [he]; simp⟩

/-- Witness for C5 with zero flags selected. -/
theorem claim_C5_witness :
    optionsCount ⟨false, false, false⟩ ≠ 1 ∧
      main ⟨false, false, false⟩ sampleContent allOkOracle ("py".toList) ("gen".toList) =
        { exitCode := 2, events := [], fileContent := sampleContent, surfacedStderr := none } :=
  ⟨by decide,
   (claim_C5 ⟨false, false, false⟩ sampleContent allOkOracle ("py".toList) ("gen".toList)
     (by decide)).1⟩

/-- Claim C6: when the labeled pattern is absent or malformed in the version
file, the read fails (uncaught ValueError, exit status 1), no file is
mutated, and the workflow halts before the write and before any external
command: the trace holds only the read of the version file. -/
theorem claim_C6 (args : Args) (content : List Char)
    (oracle : List (List Char) → CmdResult) (pythonExe genScript : List Char)
    (h1 : optionsCount args = 1) (h2 : read_current_version content = none) :
    main args content oracle pythonExe genScript =
      { exitCode := 1, events := [Event.readVersionFile], fileContent := content,
        surfacedStderr := none } ∧
    (main args content oracle pythonExe genScript).exitCode ≠ 0 := by
  have he : main args content oracle pythonExe genScript =
      { exitCode := 1, events := [Event.readVersionFile], fileContent := content,
        surfacedStderr := none } := by
    rw [main, if_neg (by omega), h2]
  exact ⟨he, by rw [he]; simp⟩

/-- Witness for C6 at a malformed content. -/
theorem claim_C6_witness :
    optionsCount ⟨true, false, false⟩ = 1 ∧
      read_current_version ("garbage".toList) = none ∧
      main ⟨true, false, false⟩ ("garbage".toList) allOkOracle ("py".toList) ("gen".toList) =
        { exitCode := 1, events := [Event.readVersionFile], fileContent := "garbage".toList,
          surfacedStderr := none } :=
  ⟨by decide, by decide,
   (claim_C6 ⟨true, false, false⟩ ("garbage".toList) allOkOracle ("py".toList) ("gen".toList)
     (by decide) (by decide)).1⟩

/-- Claim C8: when the header-regeneration step exits nonzero, the version
file has already been rewritten to the new version, no branch-creation,
staging, commit, tag or checkout command is ever executed afterward, and
the process exits nonzero with the regeneration step's captured stderr
surfaced. -/
theorem claim_C8 (args : Args) (content : List Char)
    (oracle : List (List Char) → CmdResult) (pythonExe genScript : List Char)
    (va vb vc : Nat)
    (h1 : optionsCount args = 1)
    (h2 : read_current_version content = some (va, vb, vc))
    (h3 : (oracle gitRevParseCmd).returncode = 0)
    (h4 : (oracle (genHeaderCmd pythonExe genScript)).returncode ≠ 0) :
    main args content oracle pythonExe genScript =
      { exitCode := 1,
        events := [Event.readVersionFile, Event.runCmd gitRevParseCmd,
          Event.readVersionFile,
          Event.writeVersionFile (write_version (computeNewVersion args (va, vb, vc)).1
            (computeNewVersion args (va, vb, vc)).2.1
            (computeNewVersion args (va, vb, vc)).2.2 content),
          Event.runCmd (genHeaderCmd pythonExe genScript)],
        fileContent := write_version (computeNewVersion args (va, vb, vc)).1
          (computeNewVersion args (va, vb, vc)).2.1
          (computeNewVersion args (va, vb, vc)).2.2 content,
        surfacedStderr := some (oracle (genHeaderCmd pythonExe genScript)).stderr } := by
  simp only [main, h1, ne_eq, h2, run_command_returned h3, run_command_exited h4]
  simp

/-- Witness for C8: patch bump on the sample content with a failing
regeneration step. -/
theorem claim_C8_witness :
    optionsCount ⟨false, false, true⟩ = 1 ∧
      read_current_version sampleContent = some (1, 2, 3) ∧
      (genFailOracle gitRevParseCmd).returncode = 0 ∧
      (genFailOracle (genHeaderCmd ("py".toList) ("gen".toList))).returncode ≠ 0 ∧
      main ⟨false, false, true⟩ sampleContent genFailOracle ("py".toList) ("gen".toList) =
        { exitCode := 1,
          events := [Event.readVersionFile, Event.runCmd gitRevParseCmd,
            Event.readVersionFile,
            Event.writeVersionFile
              (write_version (computeNewVersion ⟨false, false, true⟩ (1, 2, 3)).1
                (computeNewVersion ⟨false, false, true⟩ (1, 2, 3)).2.1
                (computeNewVersion ⟨false, false, true⟩ (1, 2, 3)).2.2 sampleContent),
            Event.runCmd (genHeaderCmd ("py".toList) ("gen".toList))],
          fileContent := write_version (computeNewVersion ⟨false, false, true⟩ (1, 2, 3)).1
            (computeNewVersion ⟨false, false, true⟩ (1, 2, 3)).2.1
            (computeNewVersion ⟨false, false, true⟩ (1, 2, 3)).2.2 sampleContent,
          surfacedStderr :=
            some (genFailOracle (genHeaderCmd ("py".toList) ("gen".toList))).stderr } :=
  ⟨by decide, by decide, by decide, by decide,
   claim_C8 ⟨false, false, true⟩ sampleContent genFailOracle ("py".toList) ("gen".toList)
     1 2 3 (by decide) (by decide) (by decide) (by decide)⟩

/-- Claim C9: when the version file's labeled version is 1.2.3, bump-minor
is selected and every external command succeeds, the computed triple is
(1,3,0), the file is rewritten with the 1.3.0 line, a branch `v1.3.0` is
created, the commit message is `Bump version to 1.3.0`, a tag `v1.3.0`
(identical to the branch name) is created, and the workflow finally checks
out the branch captured before the file write. -/
theorem claim_C9 (content : List Char) (oracle : List (List Char) → CmdResult)
    (pythonExe genScript : List Char)
    (h2 : read_current_version content = some (1, 2, 3))
    (hok : ∀ cmd, (oracle cmd).returncode = 0) :
    main ⟨false, true, false⟩ content oracle pythonExe genScript =
      { exitCode := 0,
        events := [Event.readVersionFile, Event.runCmd gitRevParseCmd,
          Event.readVersionFile, Event.writeVersionFile (write_version 1 3 0 content),
          Event.runCmd (genHeaderCmd pythonExe genScript),
          Event.runCmd (gitCheckoutNewBranchCmd ("v1.3.0".toList)),
          Event.runCmd gitAddCmd,
          Event.runCmd (gitCommitCmd ("Bump version to 1.3.0".toList)),
          Event.runCmd (gitTagCmd ("v1.3.0".toList)),
          Event.runCmd (gitCheckoutCmd (pyStrip (oracle gitRevParseCmd).stdout))],
        fileContent := write_version 1 3 0 content,
        surfacedStderr := none } ∧
    read_current_version (write_version 1 3 0 content) = some (1, 3, 0) := by
  constructor
  · have hv : computeNewVersion ⟨false, true, false⟩ (1, 2, 3) = (1, 3, 0) := rfl
    have hb : 'v' :: versionStr 1 3 0 = "v1.3.0".toList := by decide
    have hmsg : "Bump version to ".toList ++ versionStr 1 3 0 =
        "Bump version to 1.3.0".toList := by decide
    simp only [main, optionsCount, h2, run_command, hok, hv, hb, hmsg]
    simp [hb, hmsg]
  · rw [write_version, read_current_version,
      reSearch_subAux 1 3 0 content.length content (le_refl _)
        (reSearch_isSome_of_read (by rw [h2]; rfl))]
    simp [digitsToNat_natToChars]

/-- Witness for C9 at the sample content with an all-succeeding oracle. -/
theorem claim_C9_witness :
    read_current_version sampleContent = some (1, 2, 3) ∧
      (main ⟨false, true, false⟩ sampleContent allOkOracle ("py".toList) ("gen".toList) =
        { exitCode := 0,
          events := [Event.readVersionFile, Event.runCmd gitRevParseCmd,
            Event.readVersionFile,
            Event.writeVersionFile (write_version 1 3 0 sampleContent),
            Event.runCmd (genHeaderCmd ("py".toList) ("gen".toList)),
            Event.runCmd (gitCheckoutNewBranchCmd ("v1.3.0".toList)),
            Event.runCmd gitAddCmd,
            Event.runCmd (gitCommitCmd ("Bump version to 1.3.0".toList)),
            Event.runCmd (gitTagCmd ("v1.3.0".toList)),
            Event.runCmd (gitCheckoutCmd (pyStrip (allOkOracle gitRevParseCmd).stdout))],
          fileContent := write_version 1 3 0 sampleContent,
          surfacedStderr := none } ∧
        read_current_version (write_version 1 3 0 sampleContent) = some (1, 3, 0)) :=
  ⟨by decide,
   claim_C9 sampleContent allOkOracle ("py".toList) ("gen".toList) (by decide)
     (fun _ => rfl)⟩

end BumpVersion
